import Mathlib

/-!
Verification of the ArtCover image-converter core (src/main.rs).

The Rust program is a small GUI application.  Its core logic is:
  * `ImageProcessor::handle_file_drop` (main.rs:128-141): extension gate and
    at-most-one-job gate;
  * `ImageProcessor::update` (main.rs:63-96): the per-job state machine on the
    fields `message`, `processed_image`, `is_processing`;
  * `process_image` (main.rs:144-189): decode, dimension classification,
    conditional resample, output-path derivation, save.

The embedding models Rust `OsStr` values as byte lists (so that non-UTF-8
names, where `to_str` fails, are representable), and models the effectful
steps of `process_image` (the `image::open` call and the `save` call) as
explicit inputs: the decode result and the save result are parameters, and
the library resampler `resize_exact` is a function parameter, so theorems
can quantify over the external library behaviour.
-/

namespace ArtCover

/-- A Rust `OsStr`: a sequence of bytes (each < 256 in practice; the bound is
not needed for any claim, so bytes are plain `Nat`). -/
abbrev OsStr := List Nat

/-- One step of UTF-8 validation/decoding, as `OsStr::to_str` performs it:
strict UTF-8 with rejection of overlong forms, surrogates and out-of-range
code points. -/
def utf8Decode : List Nat → Option (List Char)
  | [] => some []
  | b :: rest =>
    if b < 0x80 then
      (utf8Decode rest).map (fun cs => Char.ofNat b :: cs)
    else if b < 0xC2 then
      none
    else if b < 0xE0 then
      match rest with
      | b1 :: rest1 =>
        if 0x80 ≤ b1 ∧ b1 < 0xC0 then
          (utf8Decode rest1).map
            (fun cs => Char.ofNat ((b - 0xC0) * 0x40 + (b1 - 0x80)) :: cs)
        else none
      | [] => none
    else if b < 0xF0 then
      match rest with
      | b1 :: b2 :: rest2 =>
        if 0x80 ≤ b1 ∧ b1 < 0xC0 ∧ 0x80 ≤ b2 ∧ b2 < 0xC0 then
          let cp := (b - 0xE0) * 0x1000 + (b1 - 0x80) * 0x40 + (b2 - 0x80)
          if 0x800 ≤ cp ∧ (cp < 0xD800 ∨ 0xDFFF < cp) then
            (utf8Decode rest2).map (fun cs => Char.ofNat cp :: cs)
          else none
        else none
      | _ => none
    else if b < 0xF5 then
      match rest with
      | b1 :: b2 :: b3 :: rest3 =>
        if 0x80 ≤ b1 ∧ b1 < 0xC0 ∧ 0x80 ≤ b2 ∧ b2 < 0xC0 ∧ 0x80 ≤ b3 ∧ b3 < 0xC0 then
          let cp := (b - 0xF0) * 0x40000 + (b1 - 0x80) * 0x1000
                      + (b2 - 0x80) * 0x40 + (b3 - 0x80)
          if 0x10000 ≤ cp ∧ cp < 0x110000 then
            (utf8Decode rest3).map (fun cs => Char.ofNat cp :: cs)
          else none
        else none
      | _ => none
    else none

/-- Rust `OsStr::to_str`: `Some` exactly when the bytes are valid UTF-8. -/
def osToStr (b : OsStr) : Option String :=
  (utf8Decode b).map (fun cs => String.mk cs)

/-- UTF-8 encoding of one scalar value (used to model how a Rust `String`
becomes the bytes of an `OsString`, e.g. in `Path::with_file_name`). -/
def utf8EncodeChar (c : Char) : List Nat :=
  let n := c.toNat
  if n < 0x80 then [n]
  else if n < 0x800 then [0xC0 + n / 0x40, 0x80 + n % 0x40]
  else if n < 0x10000 then
    [0xE0 + n / 0x1000, 0x80 + (n / 0x40) % 0x40, 0x80 + n % 0x40]
  else
    [0xF0 + n / 0x40000, 0x80 + (n / 0x1000) % 0x40,
     0x80 + (n / 0x40) % 0x40, 0x80 + n % 0x40]

/-- UTF-8 encoding of a character sequence. -/
def utf8Encode : List Char → List Nat
  | [] => []
  | c :: cs => utf8EncodeChar c ++ utf8Encode cs

/-- Bytes of a Rust `String` viewed as an `OsStr`. -/
def strBytes (s : String) : OsStr := utf8Encode s.data

/-- A filesystem path, as far as the program observes it: a directory part
(carried through unchanged by `Path::with_file_name`) and an optional final
file-name component (`Path::file_name`; `none` for the empty path, for a root
path, and for paths ending in `..`, where Rust returns `None`). -/
structure RPath where
  dir : List String
  fileName : Option OsStr
deriving DecidableEq

/-- Split a file name at its last dot, per the documented behaviour of
`Path::file_stem` / `Path::extension`: no extension when there is no dot or
the only dot starts the name; otherwise the stem is the part before the last
dot and the extension the part after it. -/
def splitExt (b : OsStr) : OsStr × Option OsStr :=
  let r := b.reverse
  let extR := r.takeWhile (fun x => x != 46)
  match r.dropWhile (fun x => x != 46) with
  | 46 :: pre => if pre.isEmpty then (b, none) else (pre.reverse, some extR.reverse)
  | _ => (b, none)

/-- Rust `path.file_stem()`. -/
def fileStem (p : RPath) : Option OsStr :=
  p.fileName.map (fun b => (splitExt b).1)

/-- Rust `path.extension()` (main.rs:130 and main.rs:180 use exactly this,
composed with `to_str`). -/
def pathExt (p : RPath) : Option OsStr :=
  p.fileName.bind (fun b => (splitExt b).2)

/-- Rust `path.with_file_name(name)` for a `String` argument: the file-name
component is replaced (or appended when absent); the directory is kept. -/
def with_file_name (p : RPath) (name : String) : RPath :=
  { p with fileName := some (strBytes name) }

/-- The dimension classification expression of `process_image`
(main.rs:154-160), an inline `if`-chain in the source:
`if width > 300 || height > 300 { (300, 300) } else if width <= 200 &&
height <= 200 { (width, height) } else { (200, 200) }`. -/
def classify (width height : Nat) : Nat × Nat :=
  if width > 300 ∨ height > 300 then (300, 300)
  else if width ≤ 200 ∧ height ≤ 200 then (width, height)
  else (200, 200)

/-- A decoded image: `image::DynamicImage` as the program observes it, namely
its `dimensions()` pair plus the pixel buffer (kept abstract as bytes, enough
to state bit-for-bit identity). -/
structure Img where
  width : Nat
  height : Nat
  pixels : List Nat
deriving DecidableEq

/-- Outcome of one `process_image` run: the returned `Result<PathBuf, String>`
plus, for reasoning about effects, the `(path, image)` argument of the `save`
call when that call was reached (`none` when `process_image` returned before
saving). -/
structure ProcResult where
  result : Except String RPath
  saveCall : Option (RPath × Img)

/-- The stem string of `process_image` (main.rs:174-178):
`path.file_stem().unwrap_or_default().to_str().unwrap_or("image")`. -/
def original_stem (p : RPath) : String :=
  (osToStr ((fileStem p).getD [])).getD ("image")

/-- The extension string of `process_image` (main.rs:180):
`path.extension().and_then(|s| s.to_str()).unwrap_or("png")`. -/
def out_extension (p : RPath) : String :=
  ((pathExt p).bind osToStr).getD ("png")

/-- `format!("{}_processed.{}", original_stem, extension)` (main.rs:181). -/
def new_filename (p : RPath) : String :=
  original_stem p ++ "_processed." ++ out_extension p

/-- `path.with_file_name(new_filename)` (main.rs:182). -/
def derive_output_path (p : RPath) : RPath :=
  with_file_name p (new_filename p)

/-- `process_image` (main.rs:144-189).  The two effectful steps are inputs:
`opened` is the result of `image::open(&path)` and `saveRes` the result of
`processed_img.save(&new_path)`; the library resampler
`resize_exact(w, h, FilterType::Lanczos3)` is the parameter `resize_exact`,
so theorems can quantify over it. -/
def process_image (resize_exact : Img → Nat → Nat → Img) (path : RPath)
    (opened : Except String Img) (saveRes : Except String Unit) : ProcResult :=
  match opened with
  | .error e => ⟨.error ("Image cannot be oppened: " ++ e), none⟩
  | .ok img =>
    let t := classify img.width img.height
    let processed_img := if (img.width, img.height) = t then img
                         else resize_exact img t.1 t.2
    let new_path := derive_output_path path
    match saveRes with
    | .ok _ => ⟨.ok new_path, some (new_path, processed_img)⟩
    | .error e => ⟨.error ("No se pudo guardar la imagen: " ++ e), some (new_path, processed_img)⟩

/-- The `ImageProcessor` state (main.rs:20-25). -/
structure AppState where
  message : String
  processed_image : Option RPath
  is_processing : Bool
deriving DecidableEq

/-- The `iced::Command` values the core can return: `Command::none()`,
`Command::perform(async { path }, Message::FileDropped)` (which delivers
`Message::FileDropped(path)`), and
`Command::perform(process_image(path), Message::ImageProcessed)` (which runs
the job and delivers its result). -/
inductive Cmd where
  | none
  | deliverFileDropped (p : RPath)
  | runProcess (p : RPath)
deriving DecidableEq

/-- The `Message` enum (main.rs:29-33); `eventOccurred od` models
`Message::EventOccurred(e)` where `od = some path` when `e` is a window
`FileDropped(path)` event and `od = none` for every other OS event. -/
inductive Msg where
  | fileDropped (p : RPath)
  | imageProcessed (r : Except String RPath)
  | eventOccurred (od : Option RPath)

/-- `ImageProcessor::handle_file_drop` (main.rs:128-141).  The Rust `match`
arms `Some("png") | Some("jpg") | Some("jpeg") | Some("bmp") | Some("webp")`
are rendered as an equality disjunction on the matched string. -/
def handle_file_drop (s : AppState) (path : RPath) : AppState × Cmd :=
  if ¬ s.is_processing then
    match (pathExt path).bind osToStr with
    | some e =>
      if e = "png" ∨ e = "jpg" ∨ e = "jpeg" ∨ e = "bmp" ∨ e = "webp" then
        (s, Cmd.deliverFileDropped path)
      else
        ({ s with message := "Error: only images are supported" }, Cmd.none)
    | none =>
      ({ s with message := "Error: only images are supported" }, Cmd.none)
  else
    (s, Cmd.none)

/-- `ImageProcessor::update` (main.rs:63-96). -/
def update (s : AppState) (m : Msg) : AppState × Cmd :=
  match m with
  | .eventOccurred od =>
    match od with
    | some path => handle_file_drop s path
    | none => (s, Cmd.none)
  | .fileDropped path =>
    ({ s with is_processing := true, processed_image := none,
              message := "Processing..." },
     Cmd.runProcess path)
  | .imageProcessed (.ok path) =>
    ({ s with is_processing := false, message := "Image processed and saved",
              processed_image := some path },
     Cmd.none)
  | .imageProcessed (.error e) =>
    ({ s with is_processing := false, message := "Error: " ++ e },
     Cmd.none)

/-- The accepted extension set of the gate (main.rs:131). -/
def accepted_exts : List String := ["png", "jpg", "jpeg", "bmp", "webp"]

/-- The initial state produced by `ImageProcessor::new` (main.rs:42-51). -/
def idleState : AppState := ⟨"Drag an image here", none, false⟩

/-- A state with a job in flight, as set by the `FileDropped` transition. -/
def busyState : AppState := ⟨"Processing...", none, true⟩

/-- Concrete input: a file named photo.png. -/
def photoPng : RPath := ⟨[], some (strBytes ("photo.png"))⟩

/-- Concrete input: a file named photo.PNG (uppercase extension). -/
def photoPNG : RPath := ⟨[], some (strBytes ("photo.PNG"))⟩

/-- Concrete input: a path with no file-name component (e.g. a root path),
where Rust `file_stem()` returns `None`. -/
def rootPath : RPath := ⟨[], none⟩

/-- Concrete input: a file name whose stem bytes (a lone 0xFF) are not valid
UTF-8 while the extension decodes to png. -/
def badStemPath : RPath := ⟨[], some [255, 46, 112, 110, 103]⟩

/-- Concrete input: a file name with no extension. -/
def noExtPath : RPath := ⟨[], some (strBytes ("noext"))⟩

/-- A concrete resampler that never returns its input buffer, used to witness
that pass-through cases do not depend on the resampler. -/
def mangleResize : Img → Nat → Nat → Img := fun _ w h => ⟨w, h, [0]⟩

lemma hfd_busy (s : AppState) (p : RPath) (h : s.is_processing = true) :
    handle_file_drop s p = (s, Cmd.none) := by
  simp [handle_file_drop, h]

lemma hfd_accept (s : AppState) (p : RPath) (e : String)
    (h : s.is_processing = false)
    (hv : (pathExt p).bind osToStr = some e)
    (he : e = "png" ∨ e = "jpg" ∨ e = "jpeg" ∨ e = "bmp" ∨ e = "webp") :
    handle_file_drop s p = (s, Cmd.deliverFileDropped p) := by
  simp only [handle_file_drop, h, hv]
  simp [if_pos he]

lemma hfd_reject (s : AppState) (p : RPath)
    (h : s.is_processing = false)
    (hv : ∀ e, (pathExt p).bind osToStr = some e →
            ¬(e = "png" ∨ e = "jpg" ∨ e = "jpeg" ∨ e = "bmp" ∨ e = "webp")) :
    handle_file_drop s p
      = ({ s with message := "Error: only images are supported" }, Cmd.none) := by
  rcases hv2 : (pathExt p).bind osToStr with _ | e
  · simp [handle_file_drop, h, hv2]
  · simp only [handle_file_drop, h, hv2]
    simp [if_neg (hv e hv2)]

lemma update_resolved_flag (s : AppState) (r : Except String RPath) :
    (update s (.imageProcessed r)).1.is_processing = false := by
  rcases r with p | e <;> rfl

lemma utf8Encode_append (l1 l2 : List Char) :
    utf8Encode (l1 ++ l2) = utf8Encode l1 ++ utf8Encode l2 := by
  induction l1 with
  | nil => rfl
  | cons c cs ih => simp [utf8Encode, ih, List.append_assoc]

lemma strBytes_append (a b : String) :
    strBytes (a ++ b) = strBytes a ++ strBytes b := by
  cases a with
  | mk d1 =>
    cases b with
    | mk d2 => simp [strBytes, String.data_append, utf8Encode_append]

lemma takeWhile_append_all {p : Nat → Bool} {l1 l2 : List Nat}
    (h : ∀ x ∈ l1, p x = true) :
    (l1 ++ l2).takeWhile p = l1 ++ l2.takeWhile p := by
  induction l1 with
  | nil => rfl
  | cons a l ih =>
    have ha := h a (List.mem_cons_self a l)
    simp [List.takeWhile_cons, ha, ih (fun x hx => h x (List.mem_cons_of_mem a hx))]

lemma dropWhile_append_all {p : Nat → Bool} {l1 l2 : List Nat}
    (h : ∀ x ∈ l1, p x = true) :
    (l1 ++ l2).dropWhile p = l2.dropWhile p := by
  induction l1 with
  | nil => rfl
  | cons a l ih =>
    have ha := h a (List.mem_cons_self a l)
    simp [List.dropWhile_cons, ha, ih (fun x hx => h x (List.mem_cons_of_mem a hx))]

lemma splitExt_suffix (sB eB : List Nat) (he : ∀ x ∈ eB, (x != 46) = true) :
    (splitExt ((sB ++ [95, 112, 114, 111, 99, 101, 115, 115, 101, 100, 46]) ++ eB)).2
      = some eB := by
  unfold splitExt
  have hrev : ((sB ++ [95, 112, 114, 111, 99, 101, 115, 115, 101, 100, 46]) ++ eB).reverse
      = eB.reverse ++
        (46 :: ([100, 101, 115, 115, 101, 99, 111, 114, 112, 95] ++ sB.reverse)) := by
    simp [List.reverse_append]
  have herev : ∀ x ∈ eB.reverse, (x != 46) = true := by
    intro x hx
    exact he x (List.mem_reverse.mp hx)
  rw [hrev]
  simp only [takeWhile_append_all herev, dropWhile_append_all herev]
  simp [List.takeWhile_cons, List.dropWhile_cons]

/-- Claim C1: the dimension classifier returns (300,300) when width > 300 or
height > 300; else (width, height) unchanged when width ≤ 200 and
height ≤ 200; else (200, 200), with the branches evaluated in that order. -/
theorem classify_branch_order (w h : Nat) :
    (w > 300 ∨ h > 300 → classify w h = (300, 300)) ∧
    (¬(w > 300 ∨ h > 300) → w ≤ 200 ∧ h ≤ 200 → classify w h = (w, h)) ∧
    (¬(w > 300 ∨ h > 300) → ¬(w ≤ 200 ∧ h ≤ 200) → classify w h = (200, 200)) := by
  refine ⟨fun h1 => ?_, fun h1 h2 => ?_, fun h1 h2 => ?_⟩
  · unfold classify; rw [if_pos h1]
  · unfold classify; rw [if_neg h1, if_pos h2]
  · unfold classify; rw [if_neg h1, if_neg h2]

theorem classify_branch_order_witness :
    classify 301 100 = (300, 300) ∧ classify 150 120 = (150, 120) ∧
    classify 250 100 = (200, 200) :=
  ⟨(classify_branch_order 301 100).1 (Or.inl (by decide)),
   (classify_branch_order 150 120).2.1 (by decide) (by decide),
   (classify_branch_order 250 100).2.2 (by decide) (by decide)⟩

/-- Claim C2: with no job in flight, the extension gate accepts a path iff
its extension string is exactly one of png, jpg, jpeg, bmp, webp
(case-sensitive exact match); on rejection no job starts and the status
message becomes the fixed error string. -/
theorem extension_gate (s : AppState) (p : RPath)
    (h : s.is_processing = false) :
    ((pathExt p).bind osToStr ∈ accepted_exts.map some →
       handle_file_drop s p = (s, Cmd.deliverFileDropped p)) ∧
    ((pathExt p).bind osToStr ∉ accepted_exts.map some →
       handle_file_drop s p
         = ({ s with message := "Error: only images are supported" }, Cmd.none)) := by
  constructor
  · intro hm
    rcases List.mem_map.mp hm with ⟨e, he, hv⟩
    have he2 : e = "png" ∨ e = "jpg" ∨ e = "jpeg" ∨ e = "bmp" ∨ e = "webp" := by
      simpa [accepted_exts] using he
    exact hfd_accept s p e h hv.symm he2
  · intro hm
    refine hfd_reject s p h (fun e hv he2 => hm ?_)
    refine List.mem_map.mpr ⟨e, ?_, hv.symm⟩
    simpa [accepted_exts] using he2

theorem extension_gate_witness :
    handle_file_drop idleState photoPng = (idleState, Cmd.deliverFileDropped photoPng) ∧
    handle_file_drop idleState photoPNG
      = ({ idleState with message := "Error: only images are supported" }, Cmd.none) :=
  ⟨(extension_gate idleState photoPng rfl).1 (by decide),
   (extension_gate idleState photoPNG rfl).2 (by decide)⟩

/-- Claim C3: while a job is in flight (is_processing is true), offering any
new path produces no new job and mutates no state. -/
theorem concurrency_gate (s : AppState) (p : RPath)
    (h : s.is_processing = true) :
    handle_file_drop s p = (s, Cmd.none) :=
  hfd_busy s p h

theorem concurrency_gate_witness :
    handle_file_drop busyState photoPng = (busyState, Cmd.none) :=
  concurrency_gate busyState photoPng rfl

/-- Claim C4 (counterexample): for a path with no file-name component the
stem cannot be determined, yet the derived file name is "_processed.png"
(empty stem), not "image_processed.png" as the claimed fallback requires. -/
theorem stem_fallback_counterexample :
    fileStem rootPath = none ∧
    new_filename rootPath = "_processed.png" ∧
    new_filename rootPath ≠ "image_processed.png" :=
  ⟨rfl, by decide, by decide⟩

/-- Claim C4 (amended): the derived output path is S_processed.E in the same
directory; E falls back to png when the extension is absent; S is the
decoded stem when it is valid UTF-8 (the empty string when the stem is
absent), and falls back to the literal "image" only when the stem bytes are
not valid UTF-8. -/
theorem output_path_derivation (p : RPath) :
    (derive_output_path p).dir = p.dir ∧
    (derive_output_path p).fileName = some (strBytes (new_filename p)) ∧
    new_filename p = original_stem p ++ "_processed." ++ out_extension p ∧
    (∀ st, osToStr ((fileStem p).getD []) = some st → original_stem p = st) ∧
    (fileStem p = none → original_stem p = "") ∧
    (osToStr ((fileStem p).getD []) = none → original_stem p = "image") ∧
    (∀ ex, (pathExt p).bind osToStr = some ex → out_extension p = ex) ∧
    ((pathExt p).bind osToStr = none → out_extension p = "png") := by
  refine ⟨rfl, rfl, rfl, fun st hst => ?_, fun hn => ?_, fun hn => ?_,
    fun ex hex => ?_, fun hn => ?_⟩
  · unfold original_stem; rw [hst]; rfl
  · unfold original_stem; rw [hn]; rfl
  · unfold original_stem; rw [hn]; rfl
  · unfold out_extension; rw [hex]; rfl
  · unfold out_extension; rw [hn]; rfl

theorem output_path_derivation_witness :
    original_stem photoPng = "photo" ∧ out_extension photoPng = "png" ∧
    original_stem rootPath = "" ∧ original_stem badStemPath = "image" ∧
    out_extension noExtPath = "png" :=
  ⟨(output_path_derivation photoPng).2.2.2.1 "photo" (by decide),
   (output_path_derivation photoPng).2.2.2.2.2.2.1 "png" (by decide),
   (output_path_derivation rootPath).2.2.2.2.1 rfl,
   (output_path_derivation badStemPath).2.2.2.2.2.1 (by decide),
   (output_path_derivation noExtPath).2.2.2.2.2.2.2 (by decide)⟩

/-- Claim C5 (counterexample): at a decode failure with reason "bad header",
the user-visible status is the misspelled "Error: Image cannot be oppened:
bad header", not "Error: Image cannot be opened: bad header" as claimed. -/
theorem decode_error_message_counterexample :
    (update busyState (.imageProcessed
        (process_image mangleResize photoPng (.error ("bad header"))
          (.ok ())).result)).1.message
      = "Error: Image cannot be oppened: bad header" ∧
    ("Error: Image cannot be oppened: bad header" : String)
      ≠ "Error: Image cannot be opened: bad header" :=
  ⟨rfl, by decide⟩

/-- Claim C5 (amended): for every decode failure, the pipeline result is the
decode error prefixed with the (misspelled) static label, and the
user-visible status is exactly "Error: Image cannot be oppened: " followed
by the underlying reason. -/
theorem decode_error_status (rz : Img → Nat → Nat → Img) (p : RPath)
    (reason : String) (sv : Except String Unit) (s : AppState) :
    (process_image rz p (.error reason) sv).result
      = .error ("Image cannot be oppened: " ++ reason) ∧
    (update s (.imageProcessed
        ((process_image rz p (.error reason) sv).result))).1.message
      = "Error: Image cannot be oppened: " ++ reason := by
  refine ⟨rfl, ?_⟩
  show "Error: " ++ ("Image cannot be oppened: " ++ reason)
      = "Error: Image cannot be oppened: " ++ reason
  have hlit : ("Error: " ++ "Image cannot be oppened: " : String)
      = "Error: Image cannot be oppened: " := by decide
  rw [← String.append_assoc, hlit]

/-- Claim C6: when decoding fails, `process_image` returns a failure and
never reaches the save step (and its outcome does not depend on the
resampler or on the save result, so classify/resample/save are skipped). -/
theorem decode_failure_skips_rest (rz : Img → Nat → Nat → Img) (p : RPath)
    (reason : String) (sv : Except String Unit) :
    (process_image rz p (.error reason) sv).saveCall = none ∧
    (process_image rz p (.error reason) sv).result
      = .error ("Image cannot be oppened: " ++ reason) ∧
    (∀ rz2 sv2, process_image rz p (.error reason) sv
        = process_image rz2 p (.error reason) sv2) :=
  ⟨rfl, rfl, fun _ _ => rfl⟩

/-- Claim C7: when the decoded dimensions already equal the classifier's
target, the image passed to the saver is the decoded image itself
(bit-for-bit, pixels included), whatever the resampler would have done. -/
theorem resample_noop_on_target (rz : Img → Nat → Nat → Img) (p : RPath)
    (img : Img) (sv : Except String Unit)
    (h : (img.width, img.height) = classify img.width img.height) :
    (process_image rz p (.ok img) sv).saveCall
      = some (derive_output_path p, img) := by
  rcases sv with u | e <;> simp [process_image, ← h]

theorem resample_noop_on_target_witness :
    (process_image mangleResize photoPng (.ok ⟨150, 100, [7, 7]⟩)
        (.ok ())).saveCall = some (derive_output_path photoPng, ⟨150, 100, [7, 7]⟩) :=
  resample_noop_on_target mangleResize photoPng ⟨150, 100, [7, 7]⟩ (.ok ()) (by decide)

/-- Claim C8: both terminal transitions (success and failure) clear the
in-flight flag; while the flag is set no job can start; and from the state
reached after any resolution, a path with an accepted extension starts a
new job. -/
theorem terminal_reentrant (s : AppState) (r : Except String RPath) (p : RPath) :
    (update s (.imageProcessed r)).1.is_processing = false ∧
    (s.is_processing = true → handle_file_drop s p = (s, Cmd.none)) ∧
    ((pathExt p).bind osToStr ∈ accepted_exts.map some →
       handle_file_drop (update s (.imageProcessed r)).1 p
         = ((update s (.imageProcessed r)).1, Cmd.deliverFileDropped p)) := by
  refine ⟨update_resolved_flag s r, fun h => hfd_busy s p h, fun hm => ?_⟩
  rcases List.mem_map.mp hm with ⟨e, he, hv⟩
  have he2 : e = "png" ∨ e = "jpg" ∨ e = "jpeg" ∨ e = "bmp" ∨ e = "webp" := by
    simpa [accepted_exts] using he
  exact hfd_accept _ p e (update_resolved_flag s r) hv.symm he2

theorem terminal_reentrant_witness :
    (update busyState (.imageProcessed (.error ("boom")))).1.is_processing = false ∧
    handle_file_drop busyState photoPng = (busyState, Cmd.none) ∧
    handle_file_drop (update busyState (.imageProcessed (.error ("boom")))).1 photoPng
      = ((update busyState (.imageProcessed (.error ("boom")))).1,
         Cmd.deliverFileDropped photoPng) :=
  ⟨(terminal_reentrant busyState (.error ("boom")) photoPng).1,
   (terminal_reentrant busyState (.error ("boom")) photoPng).2.1 rfl,
   (terminal_reentrant busyState (.error ("boom")) photoPng).2.2 (by decide)⟩

/-- Claim C9: the classifier can enlarge a dimension: at width 250, height
100 the returned target is (200, 200), whose second component exceeds the
input height, so targets are not always componentwise ≤ the input. -/
theorem classify_can_enlarge :
    classify 250 100 = (200, 200) ∧ 100 < (classify 250 100).2 := by
  decide

/-- Claim C10: for every path that passes the extension gate, the extension
used by the output-path deriver is the input extension verbatim (the png
fallback is not taken), and the derived output path's extension decodes to
that same string. -/
theorem gate_extension_verbatim (p : RPath)
    (h : (pathExt p).bind osToStr ∈ accepted_exts.map some) :
    ∃ e, e ∈ accepted_exts ∧ (pathExt p).bind osToStr = some e ∧
      out_extension p = e ∧
      (pathExt (derive_output_path p)).bind osToStr = some e := by
  rcases List.mem_map.mp h with ⟨e, he, hv⟩
  have he5 : e = "png" ∨ e = "jpg" ∨ e = "jpeg" ∨ e = "bmp" ∨ e = "webp" := by
    simpa [accepted_exts] using he
  have hout : out_extension p = e := by
    unfold out_extension; rw [← hv]; rfl
  have h1 : new_filename p = (original_stem p ++ "_processed.") ++ e := by
    show (original_stem p ++ "_processed.") ++ out_extension p = _
    rw [hout]
  have hc : strBytes ("_processed.")
      = [95, 112, 114, 111, 99, 101, 115, 115, 101, 100, 46] := by decide
  have hb : strBytes (new_filename p)
      = (strBytes (original_stem p)
          ++ [95, 112, 114, 111, 99, 101, 115, 115, 101, 100, 46]) ++ strBytes e := by
    rw [h1, strBytes_append, strBytes_append, hc]
  have he46 : ∀ x ∈ strBytes e, (x != 46) = true := by
    rcases he5 with rfl | rfl | rfl | rfl | rfl <;> decide
  have hround : osToStr (strBytes e) = some e := by
    rcases he5 with rfl | rfl | rfl | rfl | rfl <;> decide
  refine ⟨e, he, hv.symm, hout, ?_⟩
  have hpe : pathExt (derive_output_path p)
      = (splitExt (strBytes (new_filename p))).2 := rfl
  rw [hpe, hb, splitExt_suffix _ _ he46]
  simpa using hround

theorem gate_extension_verbatim_witness :
    out_extension photoPng = "png" ∧
    (pathExt (derive_output_path photoPng)).bind osToStr = some ("png") := by
  obtain ⟨e, -, hv, h1, h2⟩ := gate_extension_verbatim photoPng (by decide)
  have hv2 : (pathExt photoPng).bind osToStr = some ("png") := by decide
  rw [hv2] at hv
  have he : e = "png" := (Option.some.inj hv).symm
  rw [he] at h1 h2
  exact ⟨h1, h2⟩

end ArtCover
